import Mathlib

/-!
Shallow embedding of the resampling/aggregation core of `src/dashboard.py`:

* `get_data_by_timeframe` (lines 186-208): the Resampler that buckets snapshots
  into fixed time intervals;
* `calculate_analytics`  (lines 581-619): the AnalyticsEngine deriving scalar
  session summaries from the latest-per-strike view;
* `create_pivot_table`   (lines 552-579): the PivotBuilder reshaping one metric
  into a strike-by-time matrix.

A data frame is a list of fully populated rows together with the list of
columns present (a pandas frame can lack a column; accessing a missing column
raises `KeyError`, modelled with `Except`).  Times are seconds since midnight
of the one selected trading date; numeric cells are rationals.

pandas facts the embedding relies on:
* `Series.dt.ceil('nT')` maps `t` to the least multiple of `n` minutes `≥ t`;
* `groupby(keys).last()` (no nulls present) keeps, per group, the last row in
  the frame's current order, with the group keys sorted ascending;
* `sort_values([c1, c2])` sorts stably (lexsort) by the two columns;
* `pivot_table(index, columns, values, aggfunc='last')` yields the sorted
  distinct index/column values with the last observation per group, `NaN`
  (here `Option.none`) for empty groups, which `fillna(0)` turns into `0`.
-/

namespace OptionDashboard

/-- One snapshot row of the option-chain frame (the columns that the
resampling/aggregation core reads).  `fetchTime` is the coarse polling
timestamp `fetch_time`, `ts` the finer tie-breaking `timestamp` column. -/
structure Row where
  symbol : String
  strike : ℚ
  fetchTime : ℕ
  ts : ℕ
  spot : ℚ
  atmStrike : ℚ
  ceOI : ℚ
  peOI : ℚ
  ceVolume : ℚ
  peVolume : ℚ
  ceIV : ℚ
  peIV : ℚ
  ceChgOI : ℚ
  peChgOI : ℚ
  ceLTP : ℚ
  peLTP : ℚ
  deriving DecidableEq, Repr

/-- The data-frame columns the core accesses by name (beyond the always-present
`Strike Price`, `fetch_time` and `timestamp` grouping/ordering columns). -/
inductive Col
  | symbol
  | spotPrice
  | atmStrike
  | ceOI
  | peOI
  | ceVolume
  | peVolume
  | ceIV
  | peIV
  | ceChgOI
  | peChgOI
  | ceLTP
  | peLTP
  deriving DecidableEq, Repr

/-- The full column set of a well-formed loader frame. -/
def allCols : List Col :=
  [.symbol, .spotPrice, .atmStrike, .ceOI, .peOI, .ceVolume, .peVolume,
   .ceIV, .peIV, .ceChgOI, .peChgOI, .ceLTP, .peLTP]

/-- A data frame: rows plus the set of columns actually present. -/
structure Frame where
  rows : List Row
  cols : List Col

/-- A frame with the full loader schema. -/
def stdFrame (rows : List Row) : Frame := ⟨rows, allCols⟩

/-- Numeric value of a column in a row (`Symbol` is a string column and is
never used as a pivot metric; it reads as `0` here). -/
def getColQ (c : Col) (r : Row) : ℚ :=
  match c with
  | .symbol => 0
  | .spotPrice => r.spot
  | .atmStrike => r.atmStrike
  | .ceOI => r.ceOI
  | .peOI => r.peOI
  | .ceVolume => r.ceVolume
  | .peVolume => r.peVolume
  | .ceIV => r.ceIV
  | .peIV => r.peIV
  | .ceChgOI => r.ceChgOI
  | .peChgOI => r.peChgOI
  | .ceLTP => r.ceLTP
  | .peLTP => r.peLTP

/-- The ceiling `df['fetch_time'].dt.ceil('{n}T')`: the least multiple of `n` minutes
(`60 * n` seconds) that is `≥ t`. -/
def bucketOf (n t : ℕ) : ℕ :=
  60 * n * ((t + (60 * n - 1)) / (60 * n))

/-- The comparison used by `sort_values(['fetch_time', 'Strike Price'])`. -/
def rowLE (a b : Row) : Prop :=
  a.fetchTime < b.fetchTime ∨ (a.fetchTime = b.fetchTime ∧ a.strike ≤ b.strike)

instance : DecidableRel rowLE := fun a b => by
  unfold rowLE
  infer_instance

instance : IsTotal Row rowLE :=
  ⟨fun a b => by
    rcases Nat.lt_trichotomy a.fetchTime b.fetchTime with h | h | h
    · exact Or.inl (Or.inl h)
    · rcases le_total a.strike b.strike with hs | hs
      · exact Or.inl (Or.inr ⟨h, hs⟩)
      · exact Or.inr (Or.inr ⟨h.symm, hs⟩)
    · exact Or.inr (Or.inl h)⟩

instance : IsTrans Row rowLE :=
  ⟨fun a b c hab hbc => by
    rcases hab with h | ⟨he, hs⟩
    · rcases hbc with h' | ⟨he', _⟩
      · exact Or.inl (h.trans h')
      · exact Or.inl (he' ▸ h)
    · rcases hbc with h' | ⟨he', hs'⟩
      · exact Or.inl (he ▸ h')
      · exact Or.inr ⟨he.trans he', hs.trans hs'⟩⟩

/-- The sort `df.sort_values(['fetch_time', 'Strike Price'])`.  A multi-column pandas
`sort_values` is a stable lexsort; `insertionSort` is the stable sort of the
library, so both produce the same sequence. -/
def sortRows (rows : List Row) : List Row :=
  rows.insertionSort rowLE

/-- The loader's `ORDER BY fetch_time ASC, timestamp ASC` order. -/
def fetchTsLE (a b : Row) : Prop :=
  a.fetchTime < b.fetchTime ∨ (a.fetchTime = b.fetchTime ∧ a.ts ≤ b.ts)

instance : DecidableRel fetchTsLE := fun a b => by
  unfold fetchTsLE
  infer_instance

/-- The grouping key `(time_rounded, Strike Price)` for an `n`-minute bucket. -/
def keyFn (n : ℕ) (r : Row) : ℕ × ℚ :=
  (bucketOf n r.fetchTime, r.strike)

/-- The distinct `(time_rounded, Strike Price)` keys of the frame. -/
def keysOf (n : ℕ) (rows : List Row) : List (ℕ × ℚ) :=
  (rows.map (keyFn n)).dedup

/-- The rows mapping to the grouping key `k`. -/
def groupRows (n : ℕ) (rows : List Row) (k : ℕ × ℚ) : List Row :=
  rows.filter (fun r => decide (keyFn n r = k))

/-- The assignment `df['fetch_time'] = df['time_rounded']` for one row. -/
def setBucket (t : ℕ) (r : Row) : Row :=
  { r with fetchTime := t }

/-- The `timeframe_minutes > 1` branch of the Resampler:
`groupby(['time_rounded', 'Strike Price']).last()` followed by overwriting
`fetch_time` with the bucket time (group order is immaterial because the
caller re-sorts by `(fetch_time, Strike Price)` and bucketed keys are
distinct). -/
def resampleGT1 (n : ℕ) (rows : List Row) : List Row :=
  (keysOf n rows).filterMap (fun k => ((groupRows n rows k).getLast?).map (setBucket k.1))

/-- The Resampler `get_data_by_timeframe` after the loader query: bucket if the frame is
non-empty and the interval exceeds one minute, then sort by
`(fetch_time, Strike Price)`. -/
def get_data_by_timeframe (n : ℕ) (rows : List Row) : List Row :=
  sortRows (if rows.isEmpty then rows else if 1 < n then resampleGT1 n rows else rows)

/-- The sorted distinct strikes of the frame (`groupby('Strike Price')` /
pivot index order). -/
def strikesSorted (rows : List Row) : List ℚ :=
  ((rows.map Row.strike).dedup).insertionSort (· ≤ ·)

/-- The view `df.groupby('Strike Price').last().reset_index()`: per ascending distinct
strike, the last row of the frame with that strike. -/
def latestPerStrike (rows : List Row) : List Row :=
  (strikesSorted rows).filterMap (fun s => (rows.filter (fun r => decide (r.strike = s))).getLast?)

/-- The analytics dict of `calculate_analytics`; a key absent from the dict is
`none`. -/
structure Analytics where
  total_strikes : Option ℕ
  avg_spot_price : Option ℚ
  current_spot : Option ℚ
  total_ce_oi : Option ℚ
  total_pe_oi : Option ℚ
  pcr : Option ℚ
  total_ce_volume : Option ℚ
  total_pe_volume : Option ℚ
  avg_ce_iv : Option ℚ
  avg_pe_iv : Option ℚ
  atm_ce_oi : Option ℚ
  atm_pe_oi : Option ℚ
  atm_ce_iv : Option ℚ
  atm_pe_iv : Option ℚ
  deriving DecidableEq, Repr

/-- The empty dict `{}` returned for an empty frame. -/
def emptyAnalytics : Analytics :=
  ⟨none, none, none, none, none, none, none, none, none, none, none, none, none, none⟩

/-- The mean `Series.mean()` of a non-empty column. -/
def qmean (xs : List ℚ) : ℚ :=
  xs.sum / (xs.length : ℚ)

/-- The unguarded part of the analytics dict: the entries the source computes
before the `'ATM Strike' in latest.columns` check, from the latest-per-strike
view `latest`. -/
def analyticsBase (latest : List Row) : Analytics :=
  { total_strikes := some latest.length
    avg_spot_price := some (qmean (latest.map Row.spot))
    current_spot := some ((latest.head?).elim 0 Row.spot)
    total_ce_oi := some ((latest.map Row.ceOI).sum)
    total_pe_oi := some ((latest.map Row.peOI).sum)
    pcr := some (if 0 < (latest.map Row.ceOI).sum
                 then (latest.map Row.peOI).sum / (latest.map Row.ceOI).sum
                 else 0)
    total_ce_volume := some ((latest.map Row.ceVolume).sum)
    total_pe_volume := some ((latest.map Row.peVolume).sum)
    avg_ce_iv := some (qmean (latest.map Row.ceIV))
    avg_pe_iv := some (qmean (latest.map Row.peIV))
    atm_ce_oi := none
    atm_pe_oi := none
    atm_ce_iv := none
    atm_pe_iv := none }

/-- The ATM block of `calculate_analytics`: read `ATM Strike` from the first
row of the view, look that strike up in the view, and add the four ATM entries
when the lookup is non-empty. -/
def analyticsWithATM (latest : List Row) : Analytics :=
  match (latest.filter (fun r => decide (r.strike = (latest.head?).elim 0 Row.atmStrike))).head? with
  | some r =>
    { analyticsBase latest with
        atm_ce_oi := some r.ceOI
        atm_pe_oi := some r.peOI
        atm_ce_iv := some r.ceIV
        atm_pe_iv := some r.peIV }
  | none => analyticsBase latest

/-- The AnalyticsEngine `calculate_analytics`: empty frame returns `{}`; otherwise the summary is
computed from the latest-per-strike view, raising `KeyError` at the first
accessed column that the frame lacks (the accesses happen in source order:
Spot Price, CE OI, PE OI, CE Volume, PE Volume, CE IV, PE IV, then the guarded
ATM block). -/
def calculate_analytics (f : Frame) : Except String Analytics :=
  if f.rows.isEmpty then .ok emptyAnalytics else
  if Col.spotPrice ∉ f.cols then .error "KeyError: Spot Price" else
  if Col.ceOI ∉ f.cols then .error "KeyError: CE OI" else
  if Col.peOI ∉ f.cols then .error "KeyError: PE OI" else
  if Col.ceVolume ∉ f.cols then .error "KeyError: CE Volume" else
  if Col.peVolume ∉ f.cols then .error "KeyError: PE Volume" else
  if Col.ceIV ∉ f.cols then .error "KeyError: CE IV" else
  if Col.peIV ∉ f.cols then .error "KeyError: PE IV" else
  if Col.atmStrike ∈ f.cols then .ok (analyticsWithATM (latestPerStrike f.rows))
  else .ok (analyticsBase (latestPerStrike f.rows))

/-- The label `strftime('%H:%M')` on one trading day: the minute of the fetch time. -/
def labelOf (r : Row) : ℕ :=
  r.fetchTime / 60

/-- The sorted distinct `time_str` labels (string-sorted `"HH:MM"` labels are
in minute order). -/
def labelsSorted (rows : List Row) : List ℕ :=
  ((rows.map labelOf).dedup).insertionSort (· ≤ ·)

/-- The pivot matrix: optional instrument column, ascending distinct strikes
as rows, ascending distinct time labels as columns, one cell per pair. -/
structure Pivot where
  instrument : Option String
  strikes : List ℚ
  labels : List ℕ
  cells : List (List ℚ)
  deriving DecidableEq, Repr

/-- The empty `pd.DataFrame()` placeholder result. -/
def emptyPivot : Pivot :=
  ⟨none, [], [], []⟩

/-- Result of the PivotBuilder: the matrix plus whether a user-facing
diagnostic (`st.warning`) was emitted instead of raising. -/
structure PivotResult where
  warned : Bool
  table : Pivot
  deriving DecidableEq, Repr

/-- One cell of `pivot_table(..., aggfunc='last')` before `fillna`: the metric
of the last row observed for the strike at the label, `none` when the group is
empty. -/
def pivotCellRaw (rows : List Row) (c : Col) (s : ℚ) (l : ℕ) : Option ℚ :=
  ((rows.filter (fun r => decide (r.strike = s ∧ labelOf r = l))).getLast?).map (getColQ c)

/-- The fill `fillna(0)` on one cell. -/
def fillZero (x : Option ℚ) : ℚ :=
  x.getD 0

/-- The cell matrix of the pivot: one row per ascending distinct strike, one
column per ascending distinct minute label, `fillna(0)` applied. -/
def pivotCells (rows : List Row) (c : Col) : List (List ℚ) :=
  (strikesSorted rows).map (fun s => (labelsSorted rows).map (fun l => fillZero (pivotCellRaw rows c s l)))

/-- The `Instrument` column value: the symbol of the first frame row, when the
`Symbol` column exists. -/
def pivotInstr (f : Frame) : Option String :=
  if Col.symbol ∈ f.cols then some ((f.rows.head?).elim "" Row.symbol) else none

/-- The PivotBuilder `create_pivot_table`: warn and return the empty frame when the input is
empty or the metric column is absent; otherwise pivot strikes against minute
labels with last-observation cells, fill missing cells with `0`, and prepend
the instrument taken from the first row when the `Symbol` column exists. -/
def create_pivot_table (f : Frame) (c : Col) : PivotResult :=
  if f.rows.isEmpty ∨ c ∉ f.cols then ⟨true, emptyPivot⟩
  else ⟨false, ⟨pivotInstr f, strikesSorted f.rows, labelsSorted f.rows, pivotCells f.rows c⟩⟩

/-- Read the data cell at row `i`, column `j` of a pivot matrix (`0` outside
the matrix). -/
def cellAt (p : Pivot) (i j : ℕ) : ℚ :=
  (p.cells.getD i []).getD j 0

/-- The `(fetch_time, Strike Price)` pair of a row, the bucket key the output
of the Resampler is keyed by. -/
def pairOf (r : Row) : ℕ × ℚ :=
  (r.fetchTime, r.strike)

/-- Fixture builder for concrete test rows: symbol, strike, fetch time,
secondary timestamp, spot, ATM strike, CE OI, PE OI; the remaining metric
columns get fixed distinct values. -/
def mkRow (sym : String) (k : ℚ) (ft tsv : ℕ) (sp atm ceoi peoi : ℚ) : Row :=
  { symbol := sym, strike := k, fetchTime := ft, ts := tsv, spot := sp, atmStrike := atm,
    ceOI := ceoi, peOI := peoi, ceVolume := 1, peVolume := 2, ceIV := 3, peIV := 4,
    ceChgOI := 5, peChgOI := 6, ceLTP := 7, peLTP := 8 }

/-- Scenario A, first snapshot: strike 18000 fetched at 09:15:10. -/
def snapA : Row := mkRow "NIFTY" 18000 33310 0 100 18000 10 20

/-- Scenario A, second snapshot: strike 18000 fetched at 09:16:45. -/
def snapB : Row := mkRow "NIFTY" 18000 33405 1 101 18000 11 21

/-- Scenario A, third snapshot: strike 18000 fetched at 09:17:02. -/
def snapC : Row := mkRow "NIFTY" 18000 33422 2 102 18000 12 22

/-- A batch row with positive call OI and zero put OI. -/
def rowPcr : Row := mkRow "NIFTY" 100 0 0 50 100 1000 0

/-- Two loader-ordered snapshots sharing fetch time and strike (a duplicate
fetch within one second), distinguished by the secondary timestamp. -/
def dupX : Row := mkRow "NIFTY" 18000 100 0 1 1 1 1

/-- See `dupX`. -/
def dupY : Row := mkRow "NIFTY" 18000 100 1 1 1 2 2

/-- Loader-ordered pair at one fetch time with strikes out of ascending
order: first the 200 strike... -/
def rowA : Row := mkRow "NIFTY" 200 0 0 1 1 1 1

/-- See `rowA`: then the 100 strike at the same fetch time. -/
def rowB : Row := mkRow "NIFTY" 100 0 1 1 1 1 1

/-- Scenario E: strike 17500 observed at 09:15... -/
def pivA : Row := mkRow "NIFTY" 17500 33300 0 1 1 5 1

/-- Scenario E continued: strike 17500 observed again at 09:20. -/
def pivB : Row := mkRow "NIFTY" 17500 33600 1 1 1 6 1

/-- Scenario E continued: strike 18000 observed only at 09:20. -/
def pivC : Row := mkRow "NIFTY" 18000 33600 1 1 1 7 1

/-- A column set missing `ATM Strike` (and the LTP / change-in-OI columns the
engine never reads) but containing every column the engine does read. -/
def colsNoATM : List Col :=
  [.symbol, .spotPrice, .ceOI, .peOI, .ceVolume, .peVolume, .ceIV, .peIV]

instance {ε α : Type*} [DecidableEq ε] [DecidableEq α] : DecidableEq (Except ε α) :=
  fun x y =>
    match x, y with
    | .ok a, .ok b => decidable_of_iff (a = b) (by simp)
    | .error e, .error e' => decidable_of_iff (e = e') (by simp)
    | .ok _, .error _ => isFalse (by simp)
    | .error _, .ok _ => isFalse (by simp)

/-! ### Helper lemmas -/

/-- In a `Pairwise R` list, every element is the last one or relates to it. -/
theorem getLast?_forall_rel {α : Type*} {R : α → α → Prop} {l : List α} {m : α}
    (hp : l.Pairwise R) (hm : l.getLast? = some m) : ∀ x ∈ l, x = m ∨ R x m := by
  rcases List.getLast?_eq_some_iff.mp hm with ⟨ys, rfl⟩
  intro x hx
  rcases List.mem_append.mp hx with h | h
  · exact Or.inr ((List.pairwise_append.mp hp).2.2 x h m (by simp))
  · exact Or.inl (by simpa using h)

/-- Collapsing a `filterMap` whose values project back to the key list. -/
theorem filterMap_map_key {α κ : Type*} (key : α → κ) :
    ∀ (ks : List κ) (f : κ → Option α),
      (∀ k ∈ ks, ∃ b, f k = some b ∧ key b = k) →
      (ks.filterMap f).map key = ks := by
  intro ks
  induction ks with
  | nil => intro f _; rfl
  | cons k t ih =>
    intro f h
    obtain ⟨b, hb, hkb⟩ := h k (List.mem_cons_self k t)
    simp only [List.filterMap_cons, hb, List.map_cons, hkb]
    exact congrArg (k :: ·) (ih f (fun k' hk' => h k' (List.mem_cons_of_mem _ hk')))

theorem sortRows_perm (rows : List Row) : (sortRows rows).Perm rows :=
  List.perm_insertionSort _ _

theorem sortRows_sorted (rows : List Row) : List.Sorted rowLE (sortRows rows) :=
  List.sorted_insertionSort _ _

theorem sortRows_of_sorted {rows : List Row} (h : List.Sorted rowLE rows) :
    sortRows rows = rows :=
  h.insertionSort_eq

/-- The ceiling `bucketOf` fixes multiples of the interval length. -/
theorem bucketOf_mul (n q : ℕ) (hn : 0 < n) : bucketOf n (60 * n * q) = 60 * n * q := by
  unfold bucketOf
  have hm : 0 < 60 * n := by positivity
  have hdiv : (60 * n * q + (60 * n - 1)) / (60 * n) = q := by
    rw [Nat.add_comm, Nat.add_mul_div_left _ _ hm,
        Nat.div_eq_of_lt (Nat.sub_lt hm Nat.one_pos), Nat.zero_add]
  rw [hdiv]

/-- Ceiling to the interval is idempotent. -/
theorem bucketOf_idem (n t : ℕ) (hn : 0 < n) : bucketOf n (bucketOf n t) = bucketOf n t :=
  bucketOf_mul n ((t + (60 * n - 1)) / (60 * n)) hn

theorem mem_groupRows {n : ℕ} {rows : List Row} {k : ℕ × ℚ} {r : Row} :
    r ∈ groupRows n rows k ↔ r ∈ rows ∧ keyFn n r = k := by
  unfold groupRows
  simp [List.mem_filter]

/-- Unfolding membership in the grouped-and-reduced frame. -/
theorem mem_resampleGT1 {n : ℕ} {rows : List Row} {o : Row} :
    o ∈ resampleGT1 n rows ↔
      ∃ k ∈ keysOf n rows, ∃ r, (groupRows n rows k).getLast? = some r ∧ o = setBucket k.1 r := by
  unfold resampleGT1
  rw [List.mem_filterMap]
  constructor
  · rintro ⟨k, hk, ho⟩
    rcases Option.map_eq_some'.mp ho with ⟨r, hr, ho'⟩
    exact ⟨k, hk, r, hr, ho'.symm⟩
  · rintro ⟨k, hk, r, hr, ho⟩
    exact ⟨k, hk, by rw [hr, Option.map_some', ho]⟩

/-- Each bucketed output row carries its group key as its
`(fetch_time, Strike Price)` pair. -/
theorem map_pairOf_resampleGT1 (n : ℕ) (rows : List Row) :
    (resampleGT1 n rows).map pairOf = keysOf n rows := by
  apply filterMap_map_key
  intro k hk
  obtain ⟨r0, hr0, hkey⟩ := List.mem_map.mp (List.mem_dedup.mp hk)
  have hgrp : r0 ∈ groupRows n rows k := mem_groupRows.mpr ⟨hr0, hkey⟩
  have hne : groupRows n rows k ≠ [] := by
    intro h
    rw [h] at hgrp
    exact absurd hgrp (List.not_mem_nil r0)
  obtain ⟨b, hb⟩ := Option.isSome_iff_exists.mp (List.getLast?_isSome.mpr hne)
  have hbk : keyFn n b = k :=
    (mem_groupRows.mp (List.mem_of_mem_getLast? (Option.mem_def.mpr hb))).2
  refine ⟨setBucket k.1 b, by rw [hb, Option.map_some'], ?_⟩
  have hstrike : b.strike = k.2 := by
    have := congrArg Prod.snd hbk
    simpa [keyFn] using this
  simp [pairOf, setBucket, hstrike]

/-- Bucketed output rows have fetch times that are fixed points of the
ceiling. -/
theorem bucketOf_fixed_of_mem_resampleGT1 {n : ℕ} {rows : List Row} {o : Row}
    (hn : 0 < n) (ho : o ∈ resampleGT1 n rows) :
    bucketOf n o.fetchTime = o.fetchTime := by
  obtain ⟨k, hk, r, hr, ho'⟩ := mem_resampleGT1.mp ho
  obtain ⟨r0, _, hkey⟩ := List.mem_map.mp (List.mem_dedup.mp hk)
  have h1 : o.fetchTime = k.1 := by rw [ho']; rfl
  have h2 : k.1 = bucketOf n r0.fetchTime := by rw [← hkey]; rfl
  rw [h1, h2]
  exact bucketOf_idem n r0.fetchTime hn

/-- Grouping a frame whose `(time_rounded, Strike Price)` keys are already
unique and whose fetch times are already bucketed is the identity. -/
theorem resampleGT1_eq_self (n : ℕ) :
    ∀ l : List Row, (l.map (keyFn n)).Nodup →
      (∀ r ∈ l, bucketOf n r.fetchTime = r.fetchTime) → resampleGT1 n l = l := by
  intro l
  induction l with
  | nil => intro _ _; rfl
  | cons r t ih =>
    intro hnd hfix
    have hnd' : (r :: t).map (keyFn n) = keyFn n r :: t.map (keyFn n) := List.map_cons _ _ _
    rw [hnd'] at hnd
    have hnotin : keyFn n r ∉ t.map (keyFn n) := (List.nodup_cons.mp hnd).1
    have hdedup : keysOf n (r :: t) = keyFn n r :: t.map (keyFn n) := by
      unfold keysOf
      rw [hnd', List.dedup_eq_self.mpr (by rw [← hnd']; exact hnd' ▸ hnd)]
    unfold resampleGT1
    rw [hdedup, List.filterMap_cons]
    have hgt : groupRows n t (keyFn n r) = [] := by
      unfold groupRows
      rw [List.filter_eq_nil_iff]
      intro s hs
      simp only [decide_eq_true_eq]
      exact fun he => hnotin (he ▸ List.mem_map_of_mem (keyFn n) hs)
    have hg : groupRows n (r :: t) (keyFn n r) = [r] := by
      unfold groupRows at hgt ⊢
      rw [List.filter_cons, if_pos (by simp), hgt]
    have hhead : ((groupRows n (r :: t) (keyFn n r)).getLast?).map (setBucket (keyFn n r).1)
        = some r := by
      rw [hg]
      have : setBucket (keyFn n r).1 r = r := by
        have hb : (keyFn n r).1 = r.fetchTime := hfix r (List.mem_cons_self r t)
        rw [hb]
        rfl
      simp [this]
    rw [hhead]
    have htail : (t.map (keyFn n)).filterMap
        (fun k => ((groupRows n (r :: t) k).getLast?).map (setBucket k.1)) = t := by
      have hcongr : ∀ k ∈ t.map (keyFn n),
          ((groupRows n (r :: t) k).getLast?).map (setBucket k.1)
            = ((groupRows n t k).getLast?).map (setBucket k.1) := by
        intro k hk
        have hne : keyFn n r ≠ k := fun he => hnotin (he ▸ hk)
        have : groupRows n (r :: t) k = groupRows n t k := by
          unfold groupRows
          rw [List.filter_cons, if_neg (by simpa using hne)]
        rw [this]
      rw [List.filterMap_congr hcongr]
      have hkeys : keysOf n t = t.map (keyFn n) :=
        List.dedup_eq_self.mpr (List.nodup_cons.mp hnd).2
      have := ih (List.nodup_cons.mp hnd).2 (fun s hs => hfix s (List.mem_cons_of_mem r hs))
      unfold resampleGT1 at this
      rw [hkeys] at this
      exact this
    rw [htail]

/-- For intervals of at most one minute the Resampler only re-sorts. -/
theorem get_data_le_one {n : ℕ} (hn : ¬ 1 < n) (rows : List Row) :
    get_data_by_timeframe n rows = sortRows rows := by
  unfold get_data_by_timeframe
  rw [if_neg hn]
  cases h : rows.isEmpty <;> simp

/-- For intervals above one minute on a non-empty frame the Resampler groups
and re-sorts. -/
theorem get_data_gt_one {n : ℕ} (hn : 1 < n) {rows : List Row} (hne : rows ≠ []) :
    get_data_by_timeframe n rows = sortRows (resampleGT1 n rows) := by
  unfold get_data_by_timeframe
  rw [if_neg (by simpa using hne), if_pos hn]

/-- The latest-per-strike view only contains rows of the frame. -/
theorem mem_of_mem_latestPerStrike {r : Row} {rows : List Row}
    (h : r ∈ latestPerStrike rows) : r ∈ rows := by
  unfold latestPerStrike at h
  obtain ⟨s, _, hr⟩ := List.mem_filterMap.mp h
  exact (List.mem_filter.mp (List.mem_of_mem_getLast? (Option.mem_def.mpr hr))).1

/-- On a non-empty frame the strike-ascending latest view starts with the
latest row of the numerically smallest strike. -/
theorem latestPerStrike_head {rows : List Row} (hne : rows ≠ []) :
    ∃ m r tail,
      strikesSorted rows = m :: tail ∧
      (rows.filter (fun x => decide (x.strike = m))).getLast? = some r ∧
      (latestPerStrike rows).head? = some r ∧
      m ∈ rows.map Row.strike ∧
      ∀ s ∈ rows.map Row.strike, m ≤ s := by
  have hmapne : rows.map Row.strike ≠ [] := by simpa using hne
  obtain ⟨x, hx⟩ := List.exists_mem_of_ne_nil _ hmapne
  have hdedupne : (rows.map Row.strike).dedup ≠ [] :=
    List.ne_nil_of_mem (List.mem_dedup.mpr hx)
  have hperm := List.perm_insertionSort (α := ℚ) (· ≤ ·) ((rows.map Row.strike).dedup)
  have hssne : strikesSorted rows ≠ [] := by
    intro h
    unfold strikesSorted at h
    exact hdedupne (List.Perm.eq_nil (h ▸ hperm).symm)
  cases hss : strikesSorted rows with
  | nil => exact absurd hss hssne
  | cons m tail =>
    have hmem_iff : ∀ y : ℚ, y ∈ strikesSorted rows ↔ y ∈ rows.map Row.strike := by
      intro y
      unfold strikesSorted
      rw [hperm.mem_iff, List.mem_dedup]
    have hm_mem : m ∈ rows.map Row.strike :=
      (hmem_iff m).mp (hss ▸ List.mem_cons_self m tail)
    have hsorted : List.Sorted (· ≤ ·) (strikesSorted rows) :=
      List.sorted_insertionSort (· ≤ ·) _
    have hmin : ∀ s ∈ rows.map Row.strike, m ≤ s := by
      intro s hs
      have : s ∈ m :: tail := hss ▸ (hmem_iff s).mpr hs
      rcases List.mem_cons.mp this with h | h
      · exact le_of_eq h.symm
      · rw [hss] at hsorted
        exact (List.pairwise_cons.mp hsorted).1 s h
    obtain ⟨r0, hr0, hr0s⟩ := List.mem_map.mp hm_mem
    have hfilne : rows.filter (fun x => decide (x.strike = m)) ≠ [] :=
      List.ne_nil_of_mem (List.mem_filter.mpr ⟨hr0, by simp [hr0s]⟩)
    obtain ⟨r, hr⟩ := Option.isSome_iff_exists.mp (List.getLast?_isSome.mpr hfilne)
    refine ⟨m, r, tail, rfl, hr, ?_, hm_mem, hmin⟩
    unfold latestPerStrike
    rw [hss, List.filterMap_cons, hr]
    rfl

/-- The ATM block never changes the ten unguarded summary entries. -/
theorem analyticsWithATM_core (l : List Row) :
    (analyticsWithATM l).total_strikes = (analyticsBase l).total_strikes ∧
    (analyticsWithATM l).avg_spot_price = (analyticsBase l).avg_spot_price ∧
    (analyticsWithATM l).current_spot = (analyticsBase l).current_spot ∧
    (analyticsWithATM l).total_ce_oi = (analyticsBase l).total_ce_oi ∧
    (analyticsWithATM l).total_pe_oi = (analyticsBase l).total_pe_oi ∧
    (analyticsWithATM l).pcr = (analyticsBase l).pcr ∧
    (analyticsWithATM l).total_ce_volume = (analyticsBase l).total_ce_volume ∧
    (analyticsWithATM l).total_pe_volume = (analyticsBase l).total_pe_volume ∧
    (analyticsWithATM l).avg_ce_iv = (analyticsBase l).avg_ce_iv ∧
    (analyticsWithATM l).avg_pe_iv = (analyticsBase l).avg_pe_iv := by
  unfold analyticsWithATM
  split <;> exact ⟨rfl, rfl, rfl, rfl, rfl, rfl, rfl, rfl, rfl, rfl⟩

/-- When the frame is non-empty and the seven unguarded columns are present,
the engine succeeds and the unguarded entries take their source values. -/
theorem calculate_analytics_ok (rows : List Row) (cols : List Col) (hne : rows ≠ [])
    (h1 : Col.spotPrice ∈ cols) (h2 : Col.ceOI ∈ cols) (h3 : Col.peOI ∈ cols)
    (h4 : Col.ceVolume ∈ cols) (h5 : Col.peVolume ∈ cols) (h6 : Col.ceIV ∈ cols)
    (h7 : Col.peIV ∈ cols) :
    ∃ a, calculate_analytics ⟨rows, cols⟩ = .ok a ∧
      a.total_strikes = some (latestPerStrike rows).length ∧
      a.avg_spot_price = some (qmean ((latestPerStrike rows).map Row.spot)) ∧
      a.current_spot = some (((latestPerStrike rows).head?).elim 0 Row.spot) ∧
      a.total_ce_oi = some ((latestPerStrike rows).map Row.ceOI).sum ∧
      a.total_pe_oi = some ((latestPerStrike rows).map Row.peOI).sum ∧
      a.pcr = some (if 0 < ((latestPerStrike rows).map Row.ceOI).sum
                    then ((latestPerStrike rows).map Row.peOI).sum
                          / ((latestPerStrike rows).map Row.ceOI).sum
                    else 0) ∧
      a.total_ce_volume = some ((latestPerStrike rows).map Row.ceVolume).sum ∧
      a.total_pe_volume = some ((latestPerStrike rows).map Row.peVolume).sum ∧
      a.avg_ce_iv = some (qmean ((latestPerStrike rows).map Row.ceIV)) ∧
      a.avg_pe_iv = some (qmean ((latestPerStrike rows).map Row.peIV)) := by
  have hred : calculate_analytics ⟨rows, cols⟩ =
      (if Col.atmStrike ∈ cols then .ok (analyticsWithATM (latestPerStrike rows))
       else .ok (analyticsBase (latestPerStrike rows))) := by
    unfold calculate_analytics
    rw [if_neg (by simpa using hne), if_neg (not_not_intro h1), if_neg (not_not_intro h2),
        if_neg (not_not_intro h3), if_neg (not_not_intro h4), if_neg (not_not_intro h5),
        if_neg (not_not_intro h6), if_neg (not_not_intro h7)]
  by_cases hat : Col.atmStrike ∈ cols
  · obtain ⟨c1, c2, c3, c4, c5, c6, c7, c8, c9, c10⟩ :=
      analyticsWithATM_core (latestPerStrike rows)
    exact ⟨analyticsWithATM (latestPerStrike rows), by rw [hred, if_pos hat],
      c1, c2, c3, c4, c5, c6, c7, c8, c9, c10⟩
  · exact ⟨analyticsBase (latestPerStrike rows), by rw [hred, if_neg hat],
      rfl, rfl, rfl, rfl, rfl, rfl, rfl, rfl, rfl, rfl⟩

/-! ### Claim theorems -/

/-- Claim C5: for the empty snapshot sequence and every interval, the
Resampler returns the empty frame, the AnalyticsEngine the empty summary
mapping, and the PivotBuilder the empty matrix (with its diagnostic flag); no
exception is raised (all three compute values, the engine's `Except` is
`ok`). -/
theorem empty_input_empty_structures (n : ℕ) (c : Col) (cols : List Col) :
    get_data_by_timeframe n [] = [] ∧
    calculate_analytics ⟨[], cols⟩ = .ok emptyAnalytics ∧
    create_pivot_table ⟨[], cols⟩ c = ⟨true, emptyPivot⟩ :=
  ⟨rfl, rfl, rfl⟩

/-- Claim C8: whenever the input frame is empty or the selected metric column
is absent, the PivotBuilder emits the user-facing warning and returns the
empty matrix, and no exception is raised. -/
theorem pivot_missing_metric_warns_empty (f : Frame) (c : Col)
    (h : f.rows = [] ∨ c ∉ f.cols) :
    create_pivot_table f c = ⟨true, emptyPivot⟩ := by
  unfold create_pivot_table
  rw [if_pos]
  rcases h with h | h
  · exact Or.inl (by simp [h])
  · exact Or.inr h

/-- Witness for C8 at a concrete one-row frame lacking the `CE OI` column. -/
theorem pivot_missing_metric_warns_empty_witness :
    create_pivot_table ⟨[rowPcr], [Col.symbol]⟩ Col.ceOI = ⟨true, emptyPivot⟩ :=
  pivot_missing_metric_warns_empty ⟨[rowPcr], [Col.symbol]⟩ Col.ceOI (Or.inr (by decide))

/-- Claim C1, counterexample: on a batch whose latest view has put OI `0` and
call OI `1000`, the engine reports PCR `= 0` although total call OI is
`1000 ≠ 0`, refuting "PCR equals 0 exactly when total call OI is 0". -/
theorem pcr_zero_despite_positive_call_oi :
    (calculate_analytics (stdFrame [rowPcr])).map Analytics.pcr = .ok (some 0) ∧
    (calculate_analytics (stdFrame [rowPcr])).map Analytics.total_ce_oi = .ok (some 1000) ∧
    (1000 : ℚ) ≠ 0 := by
  refine ⟨?_, ?_, by norm_num⟩ <;>
    simp [calculate_analytics, stdFrame, allCols, latestPerStrike, strikesSorted, rowPcr, mkRow,
          analyticsWithATM, analyticsBase, List.insertionSort, List.orderedInsert, Except.map]

/-- Claim C1 (amended): on every non-empty batch with non-negative OI columns
the engine reports `PCR = total put OI / total call OI` over the
latest-per-strike view when total call OI is positive and `0` otherwise; PCR
is non-negative, equals `0` whenever total call OI is `0`, and equals `0` if
and only if total call OI is `0` or total put OI is `0`. -/
theorem pcr_nonneg_and_zero_iff (rows : List Row) (hne : rows ≠ [])
    (hce : ∀ r ∈ rows, 0 ≤ r.ceOI) (hpe : ∀ r ∈ rows, 0 ≤ r.peOI) :
    ∃ a, calculate_analytics (stdFrame rows) = .ok a ∧
      a.total_ce_oi = some ((latestPerStrike rows).map Row.ceOI).sum ∧
      a.total_pe_oi = some ((latestPerStrike rows).map Row.peOI).sum ∧
      a.pcr = some (if 0 < ((latestPerStrike rows).map Row.ceOI).sum
                    then ((latestPerStrike rows).map Row.peOI).sum
                          / ((latestPerStrike rows).map Row.ceOI).sum
                    else 0) ∧
      ∀ p, a.pcr = some p →
        0 ≤ p ∧ (p = 0 ↔ ((latestPerStrike rows).map Row.ceOI).sum = 0
                        ∨ ((latestPerStrike rows).map Row.peOI).sum = 0) := by
  obtain ⟨a, hok, _, _, _, hceq, hpeq, hpcr, _⟩ :=
    calculate_analytics_ok rows allCols hne (by decide) (by decide) (by decide)
      (by decide) (by decide) (by decide) (by decide)
  have hce0 : 0 ≤ ((latestPerStrike rows).map Row.ceOI).sum := by
    apply List.sum_nonneg
    intro x hx
    obtain ⟨r, hr, rfl⟩ := List.mem_map.mp hx
    exact hce r (mem_of_mem_latestPerStrike hr)
  have hpe0 : 0 ≤ ((latestPerStrike rows).map Row.peOI).sum := by
    apply List.sum_nonneg
    intro x hx
    obtain ⟨r, hr, rfl⟩ := List.mem_map.mp hx
    exact hpe r (mem_of_mem_latestPerStrike hr)
  refine ⟨a, hok, hceq, hpeq, hpcr, ?_⟩
  intro p hp
  rw [hpcr] at hp
  have hp' := (Option.some.injEq _ _ ▸ hp : _ = p)
  by_cases hlt : 0 < ((latestPerStrike rows).map Row.ceOI).sum
  · rw [if_pos hlt] at hp'
    subst hp'
    refine ⟨div_nonneg hpe0 (le_of_lt hlt), ?_, ?_⟩
    · intro h0
      rcases div_eq_zero_iff.mp h0 with h | h
      · exact Or.inr h
      · exact Or.inl h
    · rintro (h | h)
      · exact absurd (h ▸ hlt) (lt_irrefl 0)
      · rw [h, zero_div]
  · rw [if_neg hlt] at hp'
    subst hp'
    exact ⟨le_refl 0, fun _ => Or.inl (le_antisymm (not_lt.mp hlt) hce0), fun _ => rfl⟩

/-- Witness for C1 (amended) at the concrete one-row batch `rowPcr`. -/
theorem pcr_nonneg_and_zero_iff_witness :
    ∃ a, calculate_analytics (stdFrame [rowPcr]) = .ok a ∧
      a.total_ce_oi = some ((latestPerStrike [rowPcr]).map Row.ceOI).sum ∧
      a.total_pe_oi = some ((latestPerStrike [rowPcr]).map Row.peOI).sum ∧
      a.pcr = some (if 0 < ((latestPerStrike [rowPcr]).map Row.ceOI).sum
                    then ((latestPerStrike [rowPcr]).map Row.peOI).sum
                          / ((latestPerStrike [rowPcr]).map Row.ceOI).sum
                    else 0) ∧
      ∀ p, a.pcr = some p →
        0 ≤ p ∧ (p = 0 ↔ ((latestPerStrike [rowPcr]).map Row.ceOI).sum = 0
                        ∨ ((latestPerStrike [rowPcr]).map Row.peOI).sum = 0) :=
  pcr_nonneg_and_zero_iff [rowPcr] (by decide) (by decide) (by decide)

/-- Claim C6, counterexample: a non-empty batch whose frame lacks the `CE OI`
column makes the engine abort with a `KeyError` instead of degrading. -/
theorem analytics_missing_core_column_raises :
    calculate_analytics ⟨[rowPcr], [Col.symbol, Col.spotPrice]⟩ = .error "KeyError: CE OI" :=
  rfl

/-- Claim C6 (amended): only the ATM-dependent entries degrade to absence:
on every non-empty batch whose frame lacks `ATM Strike` (and the LTP and
change-in-OI columns the engine never reads) but has the seven columns the
engine reads, the engine still succeeds, omits exactly the four ATM entries,
and populates the ten remaining entries. -/
theorem analytics_missing_atm_column_degrades (rows : List Row) (hne : rows ≠ []) :
    ∃ a, calculate_analytics ⟨rows, colsNoATM⟩ = .ok a ∧
      a.atm_ce_oi = none ∧ a.atm_pe_oi = none ∧ a.atm_ce_iv = none ∧ a.atm_pe_iv = none ∧
      a.total_strikes.isSome ∧ a.avg_spot_price.isSome ∧ a.current_spot.isSome ∧
      a.total_ce_oi.isSome ∧ a.total_pe_oi.isSome ∧ a.pcr.isSome ∧
      a.total_ce_volume.isSome ∧ a.total_pe_volume.isSome ∧
      a.avg_ce_iv.isSome ∧ a.avg_pe_iv.isSome := by
  refine ⟨analyticsBase (latestPerStrike rows), ?_,
    rfl, rfl, rfl, rfl, rfl, rfl, rfl, rfl, rfl, rfl, rfl, rfl, rfl, rfl⟩
  unfold calculate_analytics
  rw [if_neg (by simpa using hne)]
  rfl

/-- Witness for C6 (amended) at the concrete one-row batch `rowPcr`. -/
theorem analytics_missing_atm_column_degrades_witness :
    ∃ a, calculate_analytics ⟨[rowPcr], colsNoATM⟩ = .ok a ∧
      a.atm_ce_oi = none ∧ a.atm_pe_oi = none ∧ a.atm_ce_iv = none ∧ a.atm_pe_iv = none ∧
      a.total_strikes.isSome ∧ a.avg_spot_price.isSome ∧ a.current_spot.isSome ∧
      a.total_ce_oi.isSome ∧ a.total_pe_oi.isSome ∧ a.pcr.isSome ∧
      a.total_ce_volume.isSome ∧ a.total_pe_volume.isSome ∧
      a.avg_ce_iv.isSome ∧ a.avg_pe_iv.isSome :=
  analytics_missing_atm_column_degrades [rowPcr] (by decide)

/-- Claim C10: on every non-empty batch the reported `current_spot` is the
spot price of the latest (last-in-frame) snapshot of the numerically smallest
strike — the first row of the strike-ascending latest-per-strike view — not
of the chronologically most recent snapshot overall. -/
theorem analytics_current_spot_min_strike (rows : List Row) (hne : rows ≠ []) :
    ∃ m r, m ∈ rows.map Row.strike ∧ (∀ s ∈ rows, m ≤ s.strike) ∧
      (rows.filter (fun x => decide (x.strike = m))).getLast? = some r ∧
      (calculate_analytics (stdFrame rows)).map Analytics.current_spot = .ok (some r.spot) := by
  obtain ⟨m, r, tail, hss, hfil, hhead, hm_mem, hmin⟩ := latestPerStrike_head hne
  obtain ⟨a, hok, _, _, hcs, _⟩ :=
    calculate_analytics_ok rows allCols hne (by decide) (by decide) (by decide)
      (by decide) (by decide) (by decide) (by decide)
  refine ⟨m, r, hm_mem, ?_, hfil, ?_⟩
  · intro s hs
    exact hmin s.strike (List.mem_map_of_mem Row.strike hs)
  · show (calculate_analytics ⟨rows, allCols⟩).map Analytics.current_spot = .ok (some r.spot)
    rw [hok]
    show Except.ok a.current_spot = .ok (some r.spot)
    rw [hcs, hhead]
    rfl

/-- Witness for C10 at the loader-ordered two-strike batch `[rowA, rowB]`. -/
theorem analytics_current_spot_min_strike_witness :
    ∃ m r, m ∈ [rowA, rowB].map Row.strike ∧ (∀ s ∈ [rowA, rowB], m ≤ s.strike) ∧
      ([rowA, rowB].filter (fun x => decide (x.strike = m))).getLast? = some r ∧
      (calculate_analytics (stdFrame [rowA, rowB])).map Analytics.current_spot
        = .ok (some r.spot) :=
  analytics_current_spot_min_strike [rowA, rowB] (by decide)

/-- Claim C4, counterexample: at interval 1 the Resampler re-sorts by
`(fetch_time, Strike Price)`, so a loader-ordered input whose strikes are out
of order within one fetch time is not returned unchanged — the output is not
the input sequence. -/
theorem resampler_interval_one_not_identity :
    get_data_by_timeframe 1 [rowA, rowB] ≠ [rowA, rowB] := by
  decide

/-- Claim C4 (amended): at interval 1 the Resampler applies no grouping,
dropping, or value change — the output is a permutation of the input with
every row unchanged (bucket time = fetch time) — but it does re-sort: the
output is ascending by `(fetch_time, Strike Price)` and equals the input
exactly when the input is already in that order. -/
theorem resampler_interval_one_reprojection (rows : List Row) :
    (get_data_by_timeframe 1 rows).Perm rows ∧
    List.Sorted rowLE (get_data_by_timeframe 1 rows) ∧
    (List.Sorted rowLE rows → get_data_by_timeframe 1 rows = rows) := by
  rw [get_data_le_one (by omega) rows]
  exact ⟨sortRows_perm rows, sortRows_sorted rows, fun h => sortRows_of_sorted h⟩

/-- Witness for C4 (amended): on an input already sorted by
`(fetch_time, Strike Price)` the interval-1 Resampler is the identity. -/
theorem resampler_interval_one_reprojection_witness :
    get_data_by_timeframe 1 [rowB, rowA] = [rowB, rowA] :=
  (resampler_interval_one_reprojection [rowB, rowA]).2.2 (by decide)

/-- Claim C3, counterexample: at interval 1 two loader-ordered snapshots
sharing `(fetch_time, Strike Price)` both survive, so the output has two rows
for one `(bucket_time, strike)` pair, refuting "at most one row per pair for
every interval in the set". -/
theorem resampler_duplicate_pair_at_interval_one :
    ¬ ((get_data_by_timeframe 1 [dupX, dupY]).map pairOf).Nodup := by
  decide

/-- Claim C3 (amended): for intervals above 1 the output has at most one row
per `(bucket_time, strike)` pair, every output pair is the interval-ceiling
key of some input row, and the output pair set is exactly the set of distinct
ceiling keys of the input; at interval 1 the pair multiset is the input's own
`(fetch_time, strike)` multiset (ceiling = identity), so the pair sets agree
but per-pair uniqueness holds only when the input itself has no duplicate
pair. -/
theorem resampler_bucket_pairs (n : ℕ) (rows : List Row) :
    (1 < n →
      ((get_data_by_timeframe n rows).map pairOf).Nodup ∧
      (∀ o ∈ get_data_by_timeframe n rows, pairOf o ∈ rows.map (keyFn n)) ∧
      (∀ p : ℕ × ℚ, p ∈ (get_data_by_timeframe n rows).map pairOf ↔ p ∈ rows.map (keyFn n))) ∧
    (n = 1 →
      ∀ p : ℕ × ℚ, p ∈ (get_data_by_timeframe n rows).map pairOf ↔ p ∈ rows.map pairOf) := by
  constructor
  · intro hn
    by_cases hre : rows = []
    · subst hre
      have h0 : get_data_by_timeframe n ([] : List Row) = [] := rfl
      rw [h0]
      exact ⟨by simp, by simp, by simp⟩
    · have hL : (resampleGT1 n rows).map pairOf = keysOf n rows := map_pairOf_resampleGT1 n rows
      have hperm : ((get_data_by_timeframe n rows).map pairOf).Perm (keysOf n rows) := by
        rw [get_data_gt_one hn hre, ← hL]
        exact (sortRows_perm _).map pairOf
      refine ⟨hperm.nodup_iff.mpr (List.nodup_dedup _), ?_, ?_⟩
      · intro o ho
        have hmem : pairOf o ∈ (get_data_by_timeframe n rows).map pairOf :=
          List.mem_map_of_mem pairOf ho
        exact List.mem_dedup.mp (hperm.mem_iff.mp hmem)
      · intro p
        rw [hperm.mem_iff]
        exact List.mem_dedup
  · intro hn
    subst hn
    intro p
    rw [get_data_le_one (by omega) rows]
    exact ((sortRows_perm rows).map pairOf).mem_iff

/-- Witness for C3 (amended) at interval 5 on the Scenario A batch. -/
theorem resampler_bucket_pairs_witness :
    ((get_data_by_timeframe 5 [snapA, snapB, snapC]).map pairOf).Nodup ∧
    (∀ o ∈ get_data_by_timeframe 5 [snapA, snapB, snapC],
      pairOf o ∈ [snapA, snapB, snapC].map (keyFn 5)) ∧
    (∀ p : ℕ × ℚ, p ∈ (get_data_by_timeframe 5 [snapA, snapB, snapC]).map pairOf
      ↔ p ∈ [snapA, snapB, snapC].map (keyFn 5)) :=
  (resampler_bucket_pairs 5 [snapA, snapB, snapC]).1 (by norm_num)

/-- Claim C2: on a non-empty loader-ordered batch (ascending by
`(fetch_time, timestamp)`) and an interval above 1, every output row is one of
the rows of its `(bucket_time, strike)` group with its fetch time overwritten
by the bucket time, and that row is `(fetch_time, timestamp)`-maximal in the
group; in particular three snapshots for strike 18000 at 09:15:10, 09:16:45
and 09:17:02 with interval 5 yield exactly one row, at bucket time 09:20
(33600 s), whose values are those of the 09:17:02 snapshot. -/
theorem resampler_emits_latest_per_group :
    (∀ (n : ℕ) (rows : List Row), rows ≠ [] → List.Pairwise fetchTsLE rows → 1 < n →
      ∀ o ∈ get_data_by_timeframe n rows,
        ∃ r ∈ rows,
          bucketOf n r.fetchTime = o.fetchTime ∧ r.strike = o.strike ∧
          o = setBucket o.fetchTime r ∧
          ∀ s ∈ rows, bucketOf n s.fetchTime = o.fetchTime → s.strike = o.strike →
            fetchTsLE s r) ∧
    get_data_by_timeframe 5 [snapA, snapB, snapC] = [setBucket 33600 snapC] := by
  constructor
  · intro n rows hne hsort hn o ho
    rw [get_data_gt_one hn hne] at ho
    have ho' : o ∈ resampleGT1 n rows := (sortRows_perm _).mem_iff.mp ho
    obtain ⟨k, hk, r, hr, hoe⟩ := mem_resampleGT1.mp ho'
    have hrg : r ∈ groupRows n rows k := List.mem_of_mem_getLast? (Option.mem_def.mpr hr)
    obtain ⟨hrmem, hrkey⟩ := mem_groupRows.mp hrg
    have hoft : o.fetchTime = k.1 := by rw [hoe]; rfl
    have hostrike : o.strike = r.strike := by rw [hoe]; rfl
    have hrsnd : r.strike = k.2 := by
      have h2 := congrArg Prod.snd hrkey
      simpa [keyFn] using h2
    refine ⟨r, hrmem, ?_, hostrike.symm, ?_, ?_⟩
    · rw [hoft, ← hrkey]
      rfl
    · rw [hoft]
      exact hoe
    · intro s hs hsb hss
      have hskey : keyFn n s = k := by
        show (bucketOf n s.fetchTime, s.strike) = k
        rw [hsb, hss, hostrike, hrsnd, hoft]
      have hsgrp : s ∈ groupRows n rows k := mem_groupRows.mpr ⟨hs, hskey⟩
      have hgp : (groupRows n rows k).Pairwise fetchTsLE :=
        List.Pairwise.sublist (List.filter_sublist rows) hsort
      rcases getLast?_forall_rel hgp hr s hsgrp with he | hrel
      · subst he
        exact Or.inr ⟨rfl, le_refl _⟩
      · exact hrel
  · decide

/-- Witness for C2 at interval 5 on the Scenario A batch. -/
theorem resampler_emits_latest_per_group_witness :
    ∀ o ∈ get_data_by_timeframe 5 [snapA, snapB, snapC],
      ∃ r ∈ [snapA, snapB, snapC],
        bucketOf 5 r.fetchTime = o.fetchTime ∧ r.strike = o.strike ∧
        o = setBucket o.fetchTime r ∧
        ∀ s ∈ [snapA, snapB, snapC], bucketOf 5 s.fetchTime = o.fetchTime →
          s.strike = o.strike → fetchTsLE s r :=
  resampler_emits_latest_per_group.1 5 [snapA, snapB, snapC] (by decide) (by decide) (by norm_num)

/-- Claim C9: the Resampler is idempotent (and, being a pure function of its
input, deterministic): re-running the bucketing step on its own output
returns that output unchanged, for every interval. -/
theorem resampler_idempotent (n : ℕ) (rows : List Row) :
    get_data_by_timeframe n (get_data_by_timeframe n rows) = get_data_by_timeframe n rows := by
  by_cases hn : 1 < n
  · by_cases hre : rows = []
    · subst hre
      rfl
    · rw [get_data_gt_one hn hre]
      by_cases hout : sortRows (resampleGT1 n rows) = []
      · rw [hout]
        rfl
      · rw [get_data_gt_one hn hout]
        have hfix : ∀ o ∈ sortRows (resampleGT1 n rows), bucketOf n o.fetchTime = o.fetchTime := by
          intro o ho
          exact bucketOf_fixed_of_mem_resampleGT1 (by omega)
            ((sortRows_perm (resampleGT1 n rows)).mem_iff.mp ho)
        have hmapeq : (sortRows (resampleGT1 n rows)).map (keyFn n)
            = (sortRows (resampleGT1 n rows)).map pairOf := by
          apply List.map_congr_left
          intro o ho
          show (bucketOf n o.fetchTime, o.strike) = (o.fetchTime, o.strike)
          rw [hfix o ho]
        have hnodup : ((sortRows (resampleGT1 n rows)).map pairOf).Nodup := by
          have hperm : ((sortRows (resampleGT1 n rows)).map pairOf).Perm (keysOf n rows) := by
            rw [← map_pairOf_resampleGT1 n rows]
            exact (sortRows_perm _).map pairOf
          exact hperm.nodup_iff.mpr (List.nodup_dedup _)
        rw [resampleGT1_eq_self n (sortRows (resampleGT1 n rows)) (hmapeq ▸ hnodup) hfix,
            sortRows_of_sorted (sortRows_sorted (resampleGT1 n rows))]
  · rw [get_data_le_one hn rows, get_data_le_one hn (sortRows rows),
        sortRows_of_sorted (sortRows_sorted rows)]

/-- The pivot row count is the number of distinct strikes. -/
theorem strikesSorted_length (rows : List Row) :
    (strikesSorted rows).length = ((rows.map Row.strike).toFinset).card := by
  unfold strikesSorted
  rw [(List.perm_insertionSort _ _).length_eq, List.card_toFinset]

/-- The pivot column count is the number of distinct minute labels. -/
theorem labelsSorted_length (rows : List Row) :
    (labelsSorted rows).length = ((rows.map labelOf).toFinset).card := by
  unfold labelsSorted
  rw [(List.perm_insertionSort _ _).length_eq, List.card_toFinset]

/-- Claim C7: on a non-empty frame containing the selected metric column, the
PivotBuilder returns (without warning) a matrix of exactly
(#distinct strikes) x (#distinct minute labels) data cells; a cell whose
(strike, label) combination has no observation holds 0 (the `fillna(0)` of the
`NaN` group), and every other cell holds the metric of the last observed row
for that strike at that label. -/
theorem pivot_full_matrix_cells (f : Frame) (c : Col) (hne : f.rows ≠ []) (hc : c ∈ f.cols) :
    ∃ instr strikes labels cells,
      create_pivot_table f c = ⟨false, ⟨instr, strikes, labels, cells⟩⟩ ∧
      strikes.length = ((f.rows.map Row.strike).toFinset).card ∧
      labels.length = ((f.rows.map labelOf).toFinset).card ∧
      cells.length = strikes.length ∧
      (∀ row ∈ cells, row.length = labels.length) ∧
      (∀ i j, i < strikes.length → j < labels.length →
        ((∀ r ∈ f.rows, ¬(r.strike = strikes.getD i 0 ∧ labelOf r = labels.getD j 0)) →
          cellAt ⟨instr, strikes, labels, cells⟩ i j = 0) ∧
        (∀ r, (f.rows.filter (fun x =>
            decide (x.strike = strikes.getD i 0 ∧ labelOf x = labels.getD j 0))).getLast?
              = some r →
          cellAt ⟨instr, strikes, labels, cells⟩ i j = getColQ c r)) := by
  refine ⟨pivotInstr f, strikesSorted f.rows, labelsSorted f.rows, pivotCells f.rows c,
    ?_, strikesSorted_length f.rows, labelsSorted_length f.rows, List.length_map _ _, ?_, ?_⟩
  · unfold create_pivot_table
    exact if_neg (fun h => h.elim (fun h1 => hne (by simpa using h1)) (fun h2 => h2 hc))
  · intro row hrow
    obtain ⟨s, _, rfl⟩ := List.mem_map.mp hrow
    exact List.length_map _ _
  · intro i j hi hj
    have hi2 : i < ((strikesSorted f.rows).map
        (fun s => (labelsSorted f.rows).map (fun l => fillZero (pivotCellRaw f.rows c s l)))).length := by
      rw [List.length_map]
      exact hi
    have h1 : (pivotCells f.rows c).getD i []
        = (labelsSorted f.rows).map
            (fun l => fillZero (pivotCellRaw f.rows c ((strikesSorted f.rows)[i]) l)) := by
      show ((strikesSorted f.rows).map
        (fun s => (labelsSorted f.rows).map (fun l => fillZero (pivotCellRaw f.rows c s l)))).getD i []
          = _
      rw [List.getD_eq_getElem _ _ hi2, List.getElem_map]
    have hj2 : j < ((labelsSorted f.rows).map
        (fun l => fillZero (pivotCellRaw f.rows c ((strikesSorted f.rows)[i]) l))).length := by
      rw [List.length_map]
      exact hj
    have h2 : cellAt ⟨pivotInstr f, strikesSorted f.rows, labelsSorted f.rows,
        pivotCells f.rows c⟩ i j
        = fillZero (pivotCellRaw f.rows c ((strikesSorted f.rows)[i]) ((labelsSorted f.rows)[j])) := by
      unfold cellAt
      show ((pivotCells f.rows c).getD i []).getD j 0 = _
      rw [h1, List.getD_eq_getElem _ _ hj2, List.getElem_map]
    have hsd : (strikesSorted f.rows).getD i 0 = (strikesSorted f.rows)[i] :=
      List.getD_eq_getElem _ _ hi
    have hld : (labelsSorted f.rows).getD j 0 = (labelsSorted f.rows)[j] :=
      List.getD_eq_getElem _ _ hj
    constructor
    · intro hno
      have hfil : f.rows.filter (fun x =>
          decide (x.strike = (strikesSorted f.rows).getD i 0
            ∧ labelOf x = (labelsSorted f.rows).getD j 0)) = [] := by
        rw [List.filter_eq_nil_iff]
        intro a ha
        simp only [decide_eq_true_eq]
        exact hno a ha
      rw [hsd, hld] at hfil
      rw [h2]
      unfold pivotCellRaw
      rw [hfil]
      rfl
    · intro r hr
      rw [hsd, hld] at hr
      rw [h2]
      unfold pivotCellRaw
      rw [hr]
      rfl

/-- Witness for C7: Scenario E, metric `CE OI`, strikes 17500 and 18000,
labels 09:15 and 09:20, with strike 18000 unobserved at 09:15. -/
theorem pivot_full_matrix_cells_witness :
    ∃ instr strikes labels cells,
      create_pivot_table (stdFrame [pivA, pivB, pivC]) Col.ceOI
        = ⟨false, ⟨instr, strikes, labels, cells⟩⟩ ∧
      strikes.length = (([pivA, pivB, pivC].map Row.strike).toFinset).card ∧
      labels.length = (([pivA, pivB, pivC].map labelOf).toFinset).card ∧
      cells.length = strikes.length ∧
      (∀ row ∈ cells, row.length = labels.length) ∧
      (∀ i j, i < strikes.length → j < labels.length →
        ((∀ r ∈ [pivA, pivB, pivC], ¬(r.strike = strikes.getD i 0 ∧ labelOf r = labels.getD j 0)) →
          cellAt ⟨instr, strikes, labels, cells⟩ i j = 0) ∧
        (∀ r, ([pivA, pivB, pivC].filter (fun x =>
            decide (x.strike = strikes.getD i 0 ∧ labelOf x = labels.getD j 0))).getLast?
              = some r →
          cellAt ⟨instr, strikes, labels, cells⟩ i j = getColQ Col.ceOI r)) :=
  pivot_full_matrix_cells (stdFrame [pivA, pivB, pivC]) Col.ceOI (by decide) (by decide)

end OptionDashboard

